import Mathlib

/-!
Shallow embedding of the KMED simulation scripts
(sim1_fiduciary_vs_clientelist.py, sim2_regime_switching.py,
sim3_intermittent_clientelism.py, sim4_gaslighting.py,
sim5_dissonance_training.py).

Real-valued quantities are modelled over `ℚ`.  The shared numpy
generator `rng = np.random.default_rng(42)` is modelled as an abstract
stream of outcomes together with a position counter; every call to the
source (`rng.normal`, `rng.random`, `rng.integers`) consumes exactly one
position.  A call `rng.normal(0, σ)` is modelled as `0 + σ·z` where `z`
is the stream's standard-normal outcome at the current position, which
is exactly how numpy scales a standard normal variate.
-/

/-- State of the shared pseudo-random source: `draws` holds the
real-valued outcomes (standard-normal for `normal`, uniform in `[0,1)`
for `random`), `ints` holds the raw integer outcomes for `integers`,
and `idx` is the current position.  One call consumes one position. -/
structure RNG where
  draws : ℕ → ℚ
  ints : ℕ → ℕ
  idx : ℕ

/-- Advance the random source by one consumed draw. -/
def rngAdvance (g : RNG) : RNG :=
  ⟨g.draws, g.ints, g.idx + 1⟩

/-- Model of `rng.normal(mu, sigma)`: consumes one draw, outcome
`mu + sigma · z` with `z` the stream's standard-normal outcome. -/
def rngNormal (mu sigma : ℚ) (g : RNG) : ℚ × RNG :=
  (mu + sigma * g.draws g.idx, rngAdvance g)

/-- Model of `rng.random()`: consumes one draw, outcome in `[0,1)`. -/
def rngRandom (g : RNG) : ℚ × RNG :=
  (g.draws g.idx, rngAdvance g)

/-- Model of `rng.integers(lo, hi)`: a uniform integer in `[lo, hi)`;
numpy raises `ValueError: low >= high` when the range is empty. -/
def rngIntegers (lo hi : ℕ) (g : RNG) : Except String (ℕ × RNG) :=
  if lo < hi then
    Except.ok (lo + g.ints g.idx % (hi - lo), rngAdvance g)
  else
    Except.error "low >= high"

/-- `np.clip(x, 0.0, 1.0)`. -/
def clip01 (x : ℚ) : ℚ := min 1 (max 0 x)

/-- `step_asymptotic(x, k, theta, noise_std)`, identical in all five
scripts: `eps = rng.normal(0.0, noise_std) if noise_std > 0 else 0.0;
x_next = x + k*(theta - x) + eps; return float(np.clip(x_next, 0.0, 1.0))`. -/
def step_asymptotic (x k theta noise_std : ℚ) (g : RNG) : ℚ × RNG :=
  let draw := if 0 < noise_std then rngNormal 0 noise_std g else (0, g)
  let eps := draw.1
  let x_next := x + k * (theta - x) + eps
  (clip01 x_next, draw.2)

/-- A triple of per-channel scalars (EA, DT, D); used for channel
states, for targets and for rate bundles. -/
structure Tri where
  ea : ℚ
  dt : ℚ
  d : ℚ
  deriving DecidableEq

/-- A regime parameter set: per-channel target `theta` and rate `k`,
matching the keyword bundles of the scripts. -/
structure Params where
  EA_theta : ℚ
  EA_k : ℚ
  DT_theta : ℚ
  DT_k : ℚ
  D_theta : ℚ
  D_k : ℚ
  deriving DecidableEq

/-- One loop iteration common to all schedulers: EA, DT, D are each
advanced by `step_asymptotic`, in this order, on the shared source. -/
def stepAll (P : Params) (noise_std : ℚ) (s : Tri) (g : RNG) : Tri × RNG :=
  let ea1 := step_asymptotic s.ea P.EA_k P.EA_theta noise_std g
  let dt1 := step_asymptotic s.dt P.DT_k P.DT_theta noise_std ea1.2
  let d1 := step_asymptotic s.d P.D_k P.D_theta noise_std dt1.2
  (⟨ea1.1, dt1.1, d1.1⟩, d1.2)

/-- Loop of `simulate_asym` (sim1): `n` remaining steps from state `s`.
The returned list is the trajectory of states, index 0 first. -/
def simAsymAux (P : Params) (noise_std : ℚ) : ℕ → Tri → RNG → List Tri × RNG
  | 0, s, g => ([s], g)
  | n + 1, s, g =>
    let one := stepAll P noise_std s g
    let rest := simAsymAux P noise_std n one.1 one.2
    (s :: rest.1, rest.2)

/-- `simulate_asym` from sim1: fixed regime `P` for the whole horizon. -/
def simulate_asym (T : ℕ) (s0 : Tri) (P : Params) (noise_std : ℚ) (g : RNG) :
    List Tri × RNG :=
  simAsymAux P noise_std T s0 g

/-- Loop of `simulate_asym_schedule` (sim2): at absolute step index `t`
phase-1 parameters are used when `t < Tswitch`, else phase-2. -/
def simSchedAux (P1 P2 : Params) (Tswitch : ℕ) (noise_std : ℚ) :
    ℕ → ℕ → Tri → RNG → List Tri × RNG
  | 0, _, s, g => ([s], g)
  | n + 1, t, s, g =>
    let P := if t < Tswitch then P1 else P2
    let one := stepAll P noise_std s g
    let rest := simSchedAux P1 P2 Tswitch noise_std n (t + 1) one.1 one.2
    (s :: rest.1, rest.2)

/-- `simulate_asym_schedule` from sim2: single deterministic regime
switch at `Tswitch`. -/
def simulate_asym_schedule (T Tswitch : ℕ) (s0 : Tri) (P1 P2 : Params)
    (noise_std : ℚ) (g : RNG) : List Tri × RNG :=
  simSchedAux P1 P2 Tswitch noise_std T 0 s0 g

/-- Regime labels of sim3: stable fiduciary `F` vs clientelist `C`. -/
inductive Regime
  | F
  | C
  deriving DecidableEq

/-- `F_PARAMS` from sim3. -/
def F_PARAMS : Params :=
  ⟨74/100, 5/100, 80/100, 6/100, 18/100, 6/100⟩

/-- `C_PARAMS` from sim3. -/
def C_PARAMS : Params :=
  ⟨3/100, 6/100, 8/100, 6/100, 65/100, 4/100⟩

/-- `draw_regime(prev, p, rho)` from sim3.  `rho = none` is an IID draw:
clientelist with probability `p`.  Otherwise Python evaluates
`prev is None or rng.random() > rho` left to right (short circuit: no
persistence draw is consumed when `prev is None`), drawing fresh when it
is true and returning `prev` otherwise. -/
def draw_regime (prev : Option Regime) (p : ℚ) (rho : Option ℚ) (g : RNG) :
    Regime × RNG :=
  match rho with
  | none =>
    let u := rngRandom g
    (if u.1 < p then Regime.C else Regime.F, u.2)
  | some r =>
    match prev with
    | none =>
      let u := rngRandom g
      (if u.1 < p then Regime.C else Regime.F, u.2)
    | some pr =>
      let v := rngRandom g
      if r < v.1 then
        let u := rngRandom v.2
        (if u.1 < p then Regime.C else Regime.F, u.2)
      else
        (pr, v.2)

/-- Loop of `simulate_intermit` (sim3): per step draw a regime (the
previous one threaded through, starting from `none`) and advance the
three channels with that regime's sim3 parameter constants. -/
def simIntermitAux (p : ℚ) (rho : Option ℚ) (noise_std : ℚ) :
    ℕ → Option Regime → Tri → RNG → List Tri × RNG
  | 0, _, s, g => ([s], g)
  | n + 1, prev, s, g =>
    let dr := draw_regime prev p rho g
    let P := match dr.1 with
      | Regime.C => C_PARAMS
      | Regime.F => F_PARAMS
    let one := stepAll P noise_std s dr.2
    let rest := simIntermitAux p rho noise_std n (some dr.1) one.1 one.2
    (s :: rest.1, rest.2)

/-- `simulate_intermit` from sim3. -/
def simulate_intermit (T : ℕ) (s0 : Tri) (p_clientelist : ℚ)
    (rho : Option ℚ) (noise_std : ℚ) (g : RNG) : List Tri × RNG :=
  simIntermitAux p_clientelist rho noise_std T none s0 g

/-- Python slice `y[-tail:]`: for `tail = 0` this is `y[0:]`, the whole
list; otherwise the last `min tail (length y)` elements. -/
def pyTailSlice (y : List ℚ) (tail : ℕ) : List ℚ :=
  if tail = 0 then y else y.drop (y.length - tail)

/-- `np.mean`: sum divided by length.  numpy yields NaN on an empty
array; here the `ℚ` division by zero yields the junk value 0 (never
relied upon below). -/
def pyMean (xs : List ℚ) : ℚ :=
  xs.sum / xs.length

/-- Square of `np.std(xs, ddof=1)` (Bessel-corrected sample variance).
For fewer than two samples numpy divides by `n - 1 = 0` (or takes the
mean of nothing) and produces NaN; the NaN outcome is modelled as
`none`.  The square is tracked because the standard deviation itself is
an irrational square root. -/
def sampleStdSq (xs : List ℚ) : Option ℚ :=
  if 2 ≤ xs.length then
    some ((xs.map (fun x => (x - pyMean xs) ^ 2)).sum / (xs.length - 1 : ℚ))
  else
    none

/-- `tail_stats(y, tail)` from sim3: mean of `y[-tail:]` together with
the square of the 95% half-width `1.96 * s / sqrt(n)` (squared:
`(49/25)^2 * s^2 / n`); `none` models the NaN that numpy propagates from
the sample standard deviation when the window has fewer than two
samples.  The function performs no input validation. -/
def tail_stats (y : List ℚ) (tail : ℕ) : ℚ × Option ℚ :=
  let tail_vals := pyTailSlice y tail
  let m := pyMean tail_vals
  let n : ℚ := tail_vals.length
  (m, (sampleStdSq tail_vals).map (fun s2 => (49/25) ^ 2 * s2 / n))

/-- Regime labels of sim4. -/
inductive BlockRegime
  | fiduciary
  | clientelist
  deriving DecidableEq

/-- The alternation `current = 'clientelist' if current == 'fiduciary'
else 'fiduciary'` of sim4. -/
def flipRegime : BlockRegime → BlockRegime
  | BlockRegime.fiduciary => BlockRegime.clientelist
  | BlockRegime.clientelist => BlockRegime.fiduciary

/-- `FIDUCIARY` from sim4. -/
def FIDUCIARY : Params :=
  ⟨74/100, 5/100, 80/100, 6/100, 18/100, 6/100⟩

/-- `CLIENTELIST` from sim4. -/
def CLIENTELIST : Params :=
  ⟨3/100, 6/100, 8/100, 6/100, 65/100, 4/100⟩

/-- A phase block `(regime, start_idx, end_idx)` of sim4, end exclusive. -/
abbrev PhaseBlock := BlockRegime × ℕ × ℕ

/-- The `while t < T` loop of `make_phase_pattern` (sim4): draw a block
length in `[min_len, max_len)`, cut the block at `T`, alternate the
label, continue from the block's end.  The loop is driven by a fuel
counter; exhausted fuel models the infinite loop Python would enter if
a drawn block had length 0 (possible only when `min_len = 0`). -/
def makePhasesAux (min_len max_len T : ℕ) :
    ℕ → ℕ → BlockRegime → RNG → Except String (List PhaseBlock × RNG)
  | 0, t, _, g =>
    if t < T then Except.error "nontermination" else Except.ok ([], g)
  | fuel + 1, t, current, g =>
    if t < T then
      match rngIntegers min_len max_len g with
      | Except.error e => Except.error e
      | Except.ok bg =>
        let endIdx := min T (t + bg.1)
        match makePhasesAux min_len max_len T fuel endIdx (flipRegime current) bg.2 with
        | Except.error e => Except.error e
        | Except.ok pg => Except.ok ((current, t, endIdx) :: pg.1, pg.2)
    else
      Except.ok ([], g)

/-- `make_phase_pattern(T, start, min_len, max_len)` from sim4.  A fuel
of `T` suffices because every block with positive length advances `t`. -/
def make_phase_pattern (T : ℕ) (start : BlockRegime) (min_len max_len : ℕ)
    (g : RNG) : Except String (List PhaseBlock × RNG) :=
  makePhasesAux min_len max_len T T 0 start g

/-- Regime parameter lookup of sim4. -/
def paramsOf : BlockRegime → Params
  | BlockRegime.fiduciary => FIDUCIARY
  | BlockRegime.clientelist => CLIENTELIST

/-- The `theta_k_series` pre-expansion of sim4: the per-timestep
parameter list, each block contributing one entry per covered index. -/
def expandPhases (phases : List PhaseBlock) : List Params :=
  phases.foldr (fun b acc => List.replicate (b.2.2 - b.2.1) (paramsOf b.1) ++ acc) []

/-- The update loop of sim4: one `stepAll` per entry of the expanded
per-timestep parameter list. -/
def runSeries (noise_std : ℚ) : List Params → Tri → RNG → List Tri × RNG
  | [], s, g => ([s], g)
  | P :: ps, s, g =>
    let one := stepAll P noise_std s g
    let rest := runSeries noise_std ps one.1 one.2
    (s :: rest.1, rest.2)

/-- `simulate_gaslighting` from sim4: build the phase pattern, expand it
per timestep, then run the update loop; the numpy `ValueError` from an
empty integer range propagates to the caller. -/
def simulate_gaslighting (T : ℕ) (s0 : Tri) (start : BlockRegime)
    (min_len max_len : ℕ) (noise_std : ℚ) (g : RNG) :
    Except String ((List Tri × List PhaseBlock) × RNG) :=
  match make_phase_pattern T start min_len max_len g with
  | Except.error e => Except.error e
  | Except.ok pg =>
    let run := runSeries noise_std (expandPhases pg.1) s0 pg.2
    Except.ok ((run.1, pg.1), run.2)

/-- Configuration of `simulate_training` (sim5) besides horizon,
initial state, base targets and noise. -/
structure TrainCfg where
  thetaFinal : Tri
  kBase : Tri
  kSess : Tri
  adaptRate : ℚ
  consolidateRate : ℚ
  sessions : List (ℕ × ℕ)

/-- The `in_session` mask entry of sim5: index `t` of a `(T+1)`-sized
boolean array is set by session `(s, d)` via the slice
`in_session[s : min(s+d, T+1)] = True`. -/
def inSession (sessions : List (ℕ × ℕ)) (T t : ℕ) : Bool :=
  sessions.any (fun sd => decide (sd.1 ≤ t) && decide (t < min (sd.1 + sd.2) (T + 1)))

/-- One target-drift update `theta += rate * (theta_final - theta)` of
sim5, applied to all three channels. -/
def updTargets (rate : ℚ) (final th : Tri) : Tri :=
  ⟨th.ea + rate * (final.ea - th.ea),
   th.dt + rate * (final.dt - th.dt),
   th.d + rate * (final.d - th.d)⟩

/-- Loop of `simulate_training` (sim5): at absolute step `t`, first
drift the targets (adapt rate inside a session, consolidate rate
outside), pick the session or base step rates, then advance the three
channels with the just-updated targets. -/
def simTrainAux (C : TrainCfg) (T : ℕ) (noise_std : ℚ) :
    ℕ → ℕ → Tri → Tri → RNG → List Tri × RNG
  | 0, _, _, s, g => ([s], g)
  | n + 1, t, th, s, g =>
    let sess := inSession C.sessions T t
    let th1 := if sess then updTargets C.adaptRate C.thetaFinal th
               else updTargets C.consolidateRate C.thetaFinal th
    let ks := if sess then C.kSess else C.kBase
    let P : Params := ⟨th1.ea, ks.ea, th1.dt, ks.dt, th1.d, ks.d⟩
    let one := stepAll P noise_std s g
    let rest := simTrainAux C T noise_std n (t + 1) th1 one.1 one.2
    (s :: rest.1, rest.2)

/-- `simulate_training` from sim5: returns the channel trajectories and
the boolean in-session mask over `[0, T]`. -/
def simulate_training (T : ℕ) (s0 thetaBase : Tri) (C : TrainCfg)
    (noise_std : ℚ) (g : RNG) : (List Tri × List Bool) × RNG :=
  let run := simTrainAux C T noise_std T 0 thetaBase s0 g
  ((run.1, (List.range (T + 1)).map (fun t => inSession C.sessions T t)), run.2)

/-- Membership in the hard channel interval `[0, 1]`. -/
def inUnit (x : ℚ) : Prop := 0 ≤ x ∧ x ≤ 1

/-- All three channel components lie in `[0, 1]`. -/
def triInUnit (s : Tri) : Prop := inUnit s.ea ∧ inUnit s.dt ∧ inUnit s.d

/-- The EA channel trajectory of a state trajectory. -/
def eaChannel (l : List Tri) : List ℚ := l.map (fun s => s.ea)

/-- The DT channel trajectory of a state trajectory. -/
def dtChannel (l : List Tri) : List ℚ := l.map (fun s => s.dt)

/-- The D channel trajectory of a state trajectory. -/
def dChannel (l : List Tri) : List ℚ := l.map (fun s => s.d)

/-- The spec's Trajectory invariant for one channel: length exactly
`T + 1`, element 0 the supplied initial value, every element in `[0,1]`. -/
def channelOK (T : ℕ) (x0 : ℚ) (ch : List ℚ) : Prop :=
  ch.length = T + 1 ∧ ch.head? = some x0 ∧ ∀ x ∈ ch, inUnit x

/-- The spec's Trajectory invariant for all three channels. -/
def trajOK (T : ℕ) (s0 : Tri) (tr : List Tri) : Prop :=
  channelOK T s0.ea (eaChannel tr) ∧ channelOK T s0.dt (dtChannel tr) ∧
    channelOK T s0.d (dChannel tr)

/-- The spec's validity condition on a regime parameter set: targets in
`[0,1]`, rates in `(0,1]`. -/
def ValidParams (P : Params) : Prop :=
  inUnit P.EA_theta ∧ inUnit P.DT_theta ∧ inUnit P.D_theta ∧
    0 < P.EA_k ∧ P.EA_k ≤ 1 ∧ 0 < P.DT_k ∧ P.DT_k ≤ 1 ∧ 0 < P.D_k ∧ P.D_k ≤ 1

/-- Spec-side description of the Adaptive Target Runner's moving
targets: `targetSeq t` is the target triple after `t` per-step drift
updates, starting from the base targets; step `t` drifts by the adapt
rate when `t` is in a session window and by the consolidate rate
otherwise. -/
def targetSeq (C : TrainCfg) (T : ℕ) (thetaBase : Tri) : ℕ → Tri
  | 0 => thetaBase
  | t + 1 =>
    let th := targetSeq C T thetaBase t
    if inSession C.sessions T t then updTargets C.adaptRate C.thetaFinal th
    else updTargets C.consolidateRate C.thetaFinal th

/-- Spec-side rate selection of the Adaptive Target Runner: session
rates inside a session window, base rates outside. -/
def ratesAt (C : TrainCfg) (T t : ℕ) : Tri :=
  if inSession C.sessions T t then C.kSess else C.kBase

/-- Spec-side per-step parameter bundle of the Adaptive Target Runner:
at step `t` the stepper is to use the just-updated target
`targetSeq (t+1)` and the mask-selected rate. -/
def trainParams (C : TrainCfg) (T : ℕ) (thetaBase : Tri) (t : ℕ) : Params :=
  ⟨(targetSeq C T thetaBase (t + 1)).ea, (ratesAt C T t).ea,
   (targetSeq C T thetaBase (t + 1)).dt, (ratesAt C T t).dt,
   (targetSeq C T thetaBase (t + 1)).d, (ratesAt C T t).d⟩

/-- Spec-side generic stepping loop ("run with per-step parameter
lookup"): at absolute step `t` the stepper uses parameters `f t`. -/
def runSched (f : ℕ → Params) (noise_std : ℚ) :
    ℕ → ℕ → Tri → RNG → List Tri × RNG
  | 0, _, s, g => ([s], g)
  | n + 1, t, s, g =>
    let one := stepAll (f t) noise_std s g
    let rest := runSched f noise_std n (t + 1) one.1 one.2
    (s :: rest.1, rest.2)

/-- Spec-side block-partition invariant: starting at index `t` with
label `cur`, the blocks are contiguous, labelled alternately, end at
`T`, and each block is nonempty with length `< max_len` and
`≥ min_len` unless it is cut at `T`. -/
def blocksChain (min_len max_len T : ℕ) :
    List PhaseBlock → ℕ → BlockRegime → Prop
  | [], t, _ => t = T
  | b :: rest, t, cur =>
    b.1 = cur ∧ b.2.1 = t ∧ t < b.2.2 ∧ b.2.2 ≤ T ∧
      b.2.2 - b.2.1 < max_len ∧ (min_len ≤ b.2.2 - b.2.1 ∨ b.2.2 = T) ∧
      blocksChain min_len max_len T rest b.2.2 (flipRegime cur)

/-- A concrete random-source state whose outcomes are all zero. -/
def gZero : RNG := ⟨fun _ => 0, fun _ => 0, 0⟩

/-- A concrete random-source state whose real outcomes are all one. -/
def gOne : RNG := ⟨fun _ => 1, fun _ => 0, 0⟩

/-- Element 0 is exactly the supplied initial value (no clamp touches
it), and every later element of the channel lies in `[0, 1]`. -/
def channelHeadExact (x0 : ℚ) (ch : List ℚ) : Prop :=
  ch.get? 0 = some x0 ∧ ∀ i y, ch.get? (i + 1) = some y → inUnit y

/-- `channelHeadExact` for all three channels. -/
def trajHeadExact (s0 : Tri) (tr : List Tri) : Prop :=
  channelHeadExact s0.ea (eaChannel tr) ∧ channelHeadExact s0.dt (dtChannel tr) ∧
    channelHeadExact s0.d (dChannel tr)

lemma clip01_mem (x : ℚ) : inUnit (clip01 x) :=
  ⟨le_min zero_le_one (le_max_left 0 x), min_le_left 1 (max 0 x)⟩

lemma step_fst (x k theta sigma : ℚ) (g : RNG) :
    (step_asymptotic x k theta sigma g).1 =
      clip01 (x + k * (theta - x) +
        (if 0 < sigma then rngNormal 0 sigma g else (0, g)).1) := rfl

lemma step_mem (x k theta sigma : ℚ) (g : RNG) :
    inUnit (step_asymptotic x k theta sigma g).1 := by
  rw [step_fst]; exact clip01_mem _

lemma step_nonpos (x k theta sigma : ℚ) (g : RNG) (h : ¬ 0 < sigma) :
    step_asymptotic x k theta sigma g = (clip01 (x + k * (theta - x) + 0), g) := by
  simp [step_asymptotic, h]

lemma stepAll_unit (P : Params) (sigma : ℚ) (s : Tri) (g : RNG) :
    triInUnit (stepAll P sigma s g).1 :=
  ⟨step_mem .., step_mem .., step_mem ..⟩

lemma stepAll_zero_fst (P : Params) (s : Tri) (g g' : RNG) :
    (stepAll P 0 s g).1 = (stepAll P 0 s g').1 := by
  simp [stepAll, step_nonpos _ _ _ _ _ (lt_irrefl (0 : ℚ))]

lemma stepAll_zero_snd (P : Params) (s : Tri) (g : RNG) :
    (stepAll P 0 s g).2 = g := by
  simp [stepAll, step_nonpos _ _ _ _ _ (lt_irrefl (0 : ℚ))]

lemma simAsymAux_shape (P : Params) (sigma : ℚ) :
    ∀ (n : ℕ) (s : Tri) (g : RNG), ∃ rest,
      (simAsymAux P sigma n s g).1 = s :: rest ∧ rest.length = n ∧
        ∀ y ∈ rest, triInUnit y := by
  intro n
  induction n with
  | zero => exact fun s g => ⟨[], rfl, rfl, by simp⟩
  | succ n ih =>
    intro s g
    obtain ⟨rest, h1, h2, h3⟩ := ih (stepAll P sigma s g).1 (stepAll P sigma s g).2
    refine ⟨(stepAll P sigma s g).1 :: rest, ?_, by simp [h2], ?_⟩
    · simp only [simAsymAux]
      rw [h1]
    · intro y hy
      rcases List.mem_cons.mp hy with h | h
      · exact h ▸ stepAll_unit ..
      · exact h3 y h

lemma simSchedAux_shape (P1 P2 : Params) (Tswitch : ℕ) (sigma : ℚ) :
    ∀ (n t : ℕ) (s : Tri) (g : RNG), ∃ rest,
      (simSchedAux P1 P2 Tswitch sigma n t s g).1 = s :: rest ∧
        rest.length = n ∧ ∀ y ∈ rest, triInUnit y := by
  intro n
  induction n with
  | zero => exact fun t s g => ⟨[], rfl, rfl, by simp⟩
  | succ n ih =>
    intro t s g
    obtain ⟨rest, h1, h2, h3⟩ :=
      ih (t + 1) (stepAll (if t < Tswitch then P1 else P2) sigma s g).1
        (stepAll (if t < Tswitch then P1 else P2) sigma s g).2
    refine ⟨(stepAll (if t < Tswitch then P1 else P2) sigma s g).1 :: rest, ?_,
      by simp [h2], ?_⟩
    · simp only [simSchedAux]
      rw [h1]
    · intro y hy
      rcases List.mem_cons.mp hy with h | h
      · exact h ▸ stepAll_unit ..
      · exact h3 y h

lemma simIntermitAux_shape (p : ℚ) (rho : Option ℚ) (sigma : ℚ) :
    ∀ (n : ℕ) (prev : Option Regime) (s : Tri) (g : RNG), ∃ rest,
      (simIntermitAux p rho sigma n prev s g).1 = s :: rest ∧
        rest.length = n ∧ ∀ y ∈ rest, triInUnit y := by
  intro n
  induction n with
  | zero => exact fun prev s g => ⟨[], rfl, rfl, by simp⟩
  | succ n ih =>
    intro prev s g
    set dr := draw_regime prev p rho g with hdr
    set P := (match dr.1 with
      | Regime.C => C_PARAMS
      | Regime.F => F_PARAMS) with hP
    obtain ⟨rest, h1, h2, h3⟩ :=
      ih (some dr.1) (stepAll P sigma s dr.2).1 (stepAll P sigma s dr.2).2
    refine ⟨(stepAll P sigma s dr.2).1 :: rest, ?_, by simp [h2], ?_⟩
    · simp only [simIntermitAux]
      rw [← hdr, ← hP, h1]
    · intro y hy
      rcases List.mem_cons.mp hy with h | h
      · exact h ▸ stepAll_unit ..
      · exact h3 y h

lemma runSeries_shape (sigma : ℚ) :
    ∀ (ser : List Params) (s : Tri) (g : RNG), ∃ rest,
      (runSeries sigma ser s g).1 = s :: rest ∧ rest.length = ser.length ∧
        ∀ y ∈ rest, triInUnit y := by
  intro ser
  induction ser with
  | nil => exact fun s g => ⟨[], rfl, rfl, by simp⟩
  | cons P ps ih =>
    intro s g
    obtain ⟨rest, h1, h2, h3⟩ := ih (stepAll P sigma s g).1 (stepAll P sigma s g).2
    refine ⟨(stepAll P sigma s g).1 :: rest, ?_, by simp [h2], ?_⟩
    · simp only [runSeries]
      rw [h1]
    · intro y hy
      rcases List.mem_cons.mp hy with h | h
      · exact h ▸ stepAll_unit ..
      · exact h3 y h

lemma simTrainAux_shape (C : TrainCfg) (T : ℕ) (sigma : ℚ) :
    ∀ (n t : ℕ) (th s : Tri) (g : RNG), ∃ rest,
      (simTrainAux C T sigma n t th s g).1 = s :: rest ∧
        rest.length = n ∧ ∀ y ∈ rest, triInUnit y := by
  intro n
  induction n with
  | zero => exact fun t th s g => ⟨[], rfl, rfl, by simp⟩
  | succ n ih =>
    intro t th s g
    set th1 := (if inSession C.sessions T t then
        updTargets C.adaptRate C.thetaFinal th
      else updTargets C.consolidateRate C.thetaFinal th) with hth1
    set ks := (if inSession C.sessions T t then C.kSess else C.kBase) with hks
    set P : Params := ⟨th1.ea, ks.ea, th1.dt, ks.dt, th1.d, ks.d⟩ with hPdef
    obtain ⟨rest, h1, h2, h3⟩ :=
      ih (t + 1) th1 (stepAll P sigma s g).1 (stepAll P sigma s g).2
    refine ⟨(stepAll P sigma s g).1 :: rest, ?_, by simp [h2], ?_⟩
    · simp only [simTrainAux]
      rw [← hth1, ← hks, ← hPdef, h1]
    · intro y hy
      rcases List.mem_cons.mp hy with h | h
      · exact h ▸ stepAll_unit ..
      · exact h3 y h

lemma channelOK_of (T : ℕ) (f : Tri → ℚ) (s0 : Tri) (rest : List Tri)
    (h2 : rest.length = T) (h3 : ∀ y ∈ rest, triInUnit y)
    (h0 : inUnit (f s0)) (hf : ∀ y, triInUnit y → inUnit (f y)) :
    channelOK T (f s0) ((s0 :: rest).map f) := by
  refine ⟨by simp [h2], by simp, ?_⟩
  intro x hx
  rcases List.mem_cons.mp hx with h | h
  · exact h ▸ h0
  · obtain ⟨y, hy, hfy⟩ := List.mem_map.mp h
    exact hfy ▸ hf y (h3 y hy)

lemma trajOK_of (T : ℕ) (s0 : Tri) (tr rest : List Tri)
    (h1 : tr = s0 :: rest) (h2 : rest.length = T)
    (h3 : ∀ y ∈ rest, triInUnit y) (h0 : triInUnit s0) :
    trajOK T s0 tr := by
  subst h1
  exact ⟨channelOK_of T (fun s => s.ea) s0 rest h2 h3 h0.1 (fun y hy => hy.1),
    channelOK_of T (fun s => s.dt) s0 rest h2 h3 h0.2.1 (fun y hy => hy.2.1),
    channelOK_of T (fun s => s.d) s0 rest h2 h3 h0.2.2 (fun y hy => hy.2.2)⟩

lemma channelHeadExact_of (f : Tri → ℚ) (s0 : Tri) (rest : List Tri)
    (h3 : ∀ y ∈ rest, triInUnit y) (hf : ∀ y, triInUnit y → inUnit (f y)) :
    channelHeadExact (f s0) ((s0 :: rest).map f) := by
  refine ⟨rfl, ?_⟩
  intro i y hy
  have : (rest.map f).get? i = some y := hy
  have hmem := List.get?_mem this
  obtain ⟨z, hz, hfz⟩ := List.mem_map.mp hmem
  exact hfz ▸ hf z (h3 z hz)

lemma trajHeadExact_of (s0 : Tri) (tr rest : List Tri)
    (h1 : tr = s0 :: rest) (h3 : ∀ y ∈ rest, triInUnit y) :
    trajHeadExact s0 tr := by
  subst h1
  exact ⟨channelHeadExact_of (fun s => s.ea) s0 rest h3 (fun y hy => hy.1),
    channelHeadExact_of (fun s => s.dt) s0 rest h3 (fun y hy => hy.2.1),
    channelHeadExact_of (fun s => s.d) s0 rest h3 (fun y hy => hy.2.2)⟩

lemma makePhasesAux_ok (min_len max_len T : ℕ)
    (hmin : 1 ≤ min_len) (hlt : min_len < max_len) :
    ∀ (fuel t : ℕ) (cur : BlockRegime) (g : RNG),
      t ≤ T → T ≤ t + fuel → ∃ ps g',
        makePhasesAux min_len max_len T fuel t cur g = Except.ok (ps, g') ∧
          blocksChain min_len max_len T ps t cur := by
  intro fuel
  induction fuel with
  | zero =>
    intro t cur g ht hT
    have : t = T := le_antisymm ht (by simpa using hT)
    refine ⟨[], g, ?_, this⟩
    simp [makePhasesAux, this]
  | succ fuel ih =>
    intro t cur g ht hT
    by_cases hlt' : t < T
    · have hint : rngIntegers min_len max_len g =
          Except.ok (min_len + g.ints g.idx % (max_len - min_len), rngAdvance g) := by
        simp [rngIntegers, hlt]
      set block := min_len + g.ints g.idx % (max_len - min_len) with hblock
      have hb1 : 1 ≤ block := le_trans hmin (Nat.le_add_right ..)
      have hbmax : block < max_len := by
        have hmod : g.ints g.idx % (max_len - min_len) < max_len - min_len :=
          Nat.mod_lt _ (Nat.sub_pos_of_lt hlt)
        omega
      set endIdx := min T (t + block) with hend
      have hendle : endIdx ≤ T := min_le_left ..
      have hendgt : t < endIdx := lt_min hlt' (by omega)
      obtain ⟨ps, g', hok, hchain⟩ :=
        ih endIdx (flipRegime cur) (rngAdvance g) hendle (by omega)
      have hle2 : endIdx ≤ t + block := min_le_right ..
      refine ⟨(cur, t, endIdx) :: ps, g', ?_, ?_⟩
      · simp only [makePhasesAux, if_pos hlt', hint, ← hblock, ← hend, hok]
      · refine ⟨rfl, rfl, hendgt, hendle, ?_, ?_, hchain⟩
        · show endIdx - t < max_len
          omega
        · show min_len ≤ endIdx - t ∨ endIdx = T
          rcases le_or_lt (t + block) T with h | h
          · have : endIdx = t + block := by rw [hend]; exact min_eq_right h
            left; omega
          · have : endIdx = T := by rw [hend]; exact min_eq_left (le_of_lt h)
            right; exact this
    · have : t = T := le_antisymm ht (by omega)
      refine ⟨[], g, ?_, this⟩
      simp [makePhasesAux, hlt']

lemma blocksChain_expand_length (min_len max_len T : ℕ) :
    ∀ (ps : List PhaseBlock) (t : ℕ) (cur : BlockRegime),
      blocksChain min_len max_len T ps t cur →
        (expandPhases ps).length = T - t := by
  intro ps
  induction ps with
  | nil =>
    intro t cur h
    have : t = T := h
    simp [expandPhases, this]
  | cons b rest ih =>
    intro t cur h
    obtain ⟨-, hb0, hb1, hb2, -, -, hchain⟩ := h
    have hrest := ih b.2.2 (flipRegime cur) hchain
    have : (expandPhases (b :: rest)).length =
        (b.2.2 - b.2.1) + (expandPhases rest).length := by
      simp [expandPhases]
    omega

lemma flipRegime_ne (r : BlockRegime) : r ≠ flipRegime r := by
  cases r <;> simp [flipRegime]

lemma blocksChain_mem (min_len max_len T : ℕ) :
    ∀ (ps : List PhaseBlock) (t : ℕ) (cur : BlockRegime),
      blocksChain min_len max_len T ps t cur →
        ∀ b ∈ ps, b.2.1 < b.2.2 ∧ b.2.2 ≤ T ∧ b.2.2 - b.2.1 < max_len ∧
          (min_len ≤ b.2.2 - b.2.1 ∨ b.2.2 = T) := by
  intro ps
  induction ps with
  | nil => intro t cur _ b hb; cases hb
  | cons a rest ih =>
    intro t cur h b hb
    obtain ⟨-, ha0, ha1, ha2, ha3, ha4, hchain⟩ := h
    rcases List.mem_cons.mp hb with hb | hb
    · subst hb; exact ⟨ha0 ▸ ha1, ha2, ha3, ha4⟩
    · exact ih a.2.2 (flipRegime cur) hchain b hb

lemma blocksChain_contig (min_len max_len T : ℕ) :
    ∀ (ps : List PhaseBlock) (t : ℕ) (cur : BlockRegime),
      blocksChain min_len max_len T ps t cur →
        List.Chain' (fun a b : PhaseBlock => a.2.2 = b.2.1) ps := by
  intro ps
  induction ps with
  | nil => intro t cur _; exact List.chain'_nil
  | cons a rest ih =>
    intro t cur h
    obtain ⟨-, -, -, -, -, -, hchain⟩ := h
    refine List.chain'_cons'.mpr ⟨?_, ih a.2.2 (flipRegime cur) hchain⟩
    intro y hy
    cases rest with
    | nil => cases hy
    | cons b rest2 =>
      obtain ⟨-, hb0, -, -, -, -, -⟩ := hchain
      cases hy
      exact hb0.symm

lemma blocksChain_alternating (min_len max_len T : ℕ) :
    ∀ (ps : List PhaseBlock) (t : ℕ) (cur : BlockRegime),
      blocksChain min_len max_len T ps t cur →
        List.Chain' (fun a b : PhaseBlock => a.1 ≠ b.1) ps := by
  intro ps
  induction ps with
  | nil => intro t cur _; exact List.chain'_nil
  | cons a rest ih =>
    intro t cur h
    obtain ⟨hlab, -, -, -, -, -, hchain⟩ := h
    refine List.chain'_cons'.mpr ⟨?_, ih a.2.2 (flipRegime cur) hchain⟩
    intro y hy
    cases rest with
    | nil => cases hy
    | cons b rest2 =>
      obtain ⟨hblab, -, -, -, -, -, -⟩ := hchain
      cases hy
      rw [hlab, hblab]
      exact flipRegime_ne cur

lemma blocksChain_getLast (min_len max_len T : ℕ) :
    ∀ (ps : List PhaseBlock) (t : ℕ) (cur : BlockRegime),
      blocksChain min_len max_len T ps t cur → ps ≠ [] →
        ps.getLast?.map (fun b => b.2.2) = some T := by
  intro ps
  induction ps with
  | nil => intro t cur _ hne; exact absurd rfl hne
  | cons a rest ih =>
    intro t cur h _
    obtain ⟨-, -, -, ha2, -, -, hchain⟩ := h
    cases rest with
    | nil =>
      have hT : a.2.2 = T := hchain
      simp [List.getLast?, hT]
    | cons b rest2 =>
      have := ih a.2.2 (flipRegime cur) hchain (by simp)
      rwa [List.getLast?_cons_cons]

lemma simAsymAux_zero (P : Params) :
    ∀ (n : ℕ) (s : Tri) (g g' : RNG),
      (simAsymAux P 0 n s g).1 = (simAsymAux P 0 n s g').1 := by
  intro n
  induction n with
  | zero => intro s g g'; rfl
  | succ n ih =>
    intro s g g'
    simp only [simAsymAux]
    rw [stepAll_zero_fst P s g' g]
    rw [ih (stepAll P 0 s g).1 (stepAll P 0 s g).2 (stepAll P 0 s g').2]

lemma simSchedAux_zero (P1 P2 : Params) (Tswitch : ℕ) :
    ∀ (n t : ℕ) (s : Tri) (g g' : RNG),
      (simSchedAux P1 P2 Tswitch 0 n t s g).1 =
        (simSchedAux P1 P2 Tswitch 0 n t s g').1 := by
  intro n
  induction n with
  | zero => intro t s g g'; rfl
  | succ n ih =>
    intro t s g g'
    simp only [simSchedAux]
    rw [stepAll_zero_fst (if t < Tswitch then P1 else P2) s g' g]
    rw [ih (t + 1) (stepAll (if t < Tswitch then P1 else P2) 0 s g).1
      (stepAll (if t < Tswitch then P1 else P2) 0 s g).2
      (stepAll (if t < Tswitch then P1 else P2) 0 s g').2]

lemma simTrainAux_zero (C : TrainCfg) (T : ℕ) :
    ∀ (n t : ℕ) (th s : Tri) (g g' : RNG),
      (simTrainAux C T 0 n t th s g).1 = (simTrainAux C T 0 n t th s g').1 := by
  intro n
  induction n with
  | zero => intro t th s g g'; rfl
  | succ n ih =>
    intro t th s g g'
    simp only [simTrainAux]
    rw [stepAll_zero_fst _ s g' g]
    rw [ih (t + 1) _ _ _ _]

lemma simSchedAux_switch_zero (P1 P2 : Params) (sigma : ℚ) :
    ∀ (n t : ℕ) (s : Tri) (g : RNG),
      simSchedAux P1 P2 0 sigma n t s g = simAsymAux P2 sigma n s g := by
  intro n
  induction n with
  | zero => intro t s g; rfl
  | succ n ih =>
    intro t s g
    simp only [simSchedAux, simAsymAux, Nat.not_lt_zero, if_false]
    rw [ih (t + 1) _ _]

lemma simSchedAux_switch_ge (P1 P2 : Params) (Tswitch : ℕ) (sigma : ℚ) :
    ∀ (n t : ℕ) (s : Tri) (g : RNG), t + n ≤ Tswitch →
      simSchedAux P1 P2 Tswitch sigma n t s g = simAsymAux P1 sigma n s g := by
  intro n
  induction n with
  | zero => intro t s g _; rfl
  | succ n ih =>
    intro t s g hle
    have ht : t < Tswitch := by omega
    simp only [simSchedAux, simAsymAux, if_pos ht]
    rw [ih (t + 1) _ _ (by omega)]

lemma simTrainAux_runSched (C : TrainCfg) (T : ℕ) (thetaBase : Tri) (sigma : ℚ) :
    ∀ (n t : ℕ) (s : Tri) (g : RNG),
      simTrainAux C T sigma n t (targetSeq C T thetaBase t) s g =
        runSched (trainParams C T thetaBase) sigma n t s g := by
  intro n
  induction n with
  | zero => intro t s g; rfl
  | succ n ih =>
    intro t s g
    exact congrArg (fun r : List Tri × RNG => (s :: r.1, r.2))
      (ih (t + 1) (stepAll (trainParams C T thetaBase t) sigma s g).1
        (stepAll (trainParams C T thetaBase t) sigma s g).2)

/-- C2: one invocation of the stepper returns exactly
`clamp(x + k·(θ − x) + ε, 0, 1)`, where `ε` is the scaled Gaussian
outcome `σ·z` of the shared source when `σ > 0` and exactly `0` when
`σ = 0` (indeed whenever `σ ≤ 0`); clamping is applied last, after the
noise is added, inputs outside `[0,1]` are permitted, and the result
always lies in `[0,1]`. -/
theorem claim_C2_stepper_contract (x k theta sigma : ℚ) (g : RNG) :
    (step_asymptotic x k theta sigma g).1 =
      clip01 (x + k * (theta - x) +
        (if 0 < sigma then sigma * g.draws g.idx else 0)) ∧
    0 ≤ (step_asymptotic x k theta sigma g).1 ∧
    (step_asymptotic x k theta sigma g).1 ≤ 1 := by
  refine ⟨?_, (step_mem x k theta sigma g).1, (step_mem x k theta sigma g).2⟩
  rw [step_fst]
  by_cases h : 0 < sigma
  · simp [h, rngNormal]
  · simp [h]

/-- C9: an invocation of the stepper with `σ > 0` consumes exactly one
draw from the shared pseudo-random source (the returned source state is
the input state advanced by one position), and an invocation with
`σ = 0` consumes zero draws and returns the source state unchanged. -/
theorem claim_C9_stepper_draws (x k theta sigma : ℚ) (g : RNG) :
    (0 < sigma → (step_asymptotic x k theta sigma g).2 = rngAdvance g) ∧
    (step_asymptotic x k theta 0 g).2 = g := by
  constructor
  · intro h
    simp [step_asymptotic, h, rngNormal]
  · simp [step_asymptotic]

/-- Witness for C9 at concrete inputs. -/
theorem claim_C9_witness :
    (0 : ℚ) < 1 ∧
    (step_asymptotic (1/2) (1/20) (3/4) 1 gZero).2 = rngAdvance gZero ∧
    (step_asymptotic (1/2) (1/20) (3/4) 0 gZero).2 = gZero :=
  ⟨by norm_num,
   (claim_C9_stepper_draws (1/2) (1/20) (3/4) 1 gZero).1 (by norm_num),
   (claim_C9_stepper_draws (1/2) (1/20) (3/4) 0 gZero).2⟩

/-- C6: with `ρ` absent, one regime draw consumes one uniform outcome
`u` and yields `C` exactly when `u < p` (else `F`).  With `ρ` present
and no previous regime, the fresh-draw rule is used with a single
consumed draw — no persistence draw.  With `ρ` present and a previous
regime, one persistence outcome `v` is consumed: if `v > ρ` a second,
fresh outcome decides by the base rule, otherwise the previous regime
is repeated. -/
theorem claim_C6_draw_regime (p r : ℚ) (prev : Option Regime) (pr : Regime)
    (g : RNG) :
    draw_regime prev p none g =
      ((if g.draws g.idx < p then Regime.C else Regime.F), rngAdvance g) ∧
    draw_regime none p (some r) g =
      ((if g.draws g.idx < p then Regime.C else Regime.F), rngAdvance g) ∧
    draw_regime (some pr) p (some r) g =
      (if r < g.draws g.idx then
        ((if g.draws (g.idx + 1) < p then Regime.C else Regime.F),
          rngAdvance (rngAdvance g))
      else (pr, rngAdvance g)) := by
  refine ⟨?_, rfl, ?_⟩
  · cases prev <;> rfl
  · by_cases h : r < g.draws g.idx <;>
      simp [draw_regime, rngRandom, rngAdvance, h]

/-- Counterexample to C4 as stated: the probabilistic regime runner
consumes regime draws even at `σ = 0`, so two zero-noise runs with
identical configuration but different random-source states produce
different trajectories. -/
theorem claim_C4_counterexample :
    (simulate_intermit 1 ⟨1/2, 1/2, 1/2⟩ (1/2) none 0 gZero).1 ≠
      (simulate_intermit 1 ⟨1/2, 1/2, 1/2⟩ (1/2) none 0 gOne).1 := by
  have hz : (simulate_intermit 1 ⟨1/2, 1/2, 1/2⟩ (1/2) none 0 gZero).1 =
      [⟨1/2, 1/2, 1/2⟩, ⟨2359/5000, 1187/2500, 253/500⟩] := by
    norm_num [simulate_intermit, simIntermitAux, draw_regime, rngRandom,
      rngAdvance, gZero, stepAll, step_asymptotic, rngNormal, clip01, C_PARAMS]
  have ho : (simulate_intermit 1 ⟨1/2, 1/2, 1/2⟩ (1/2) none 0 gOne).1 =
      [⟨1/2, 1/2, 1/2⟩, ⟨64/125, 259/500, 601/1250⟩] := by
    norm_num [simulate_intermit, simIntermitAux, draw_regime, rngRandom,
      rngAdvance, gOne, stepAll, step_asymptotic, rngNormal, clip01, F_PARAMS]
  rw [hz, ho]
  norm_num [Tri.mk.injEq]

/-- C4 (amended): for the static, single-switch and adaptive-target
runners — whose only random consumption is the stepper noise — two runs
with identical configuration and `σ = 0` produce identical trajectories
regardless of the random-source states. -/
theorem claim_C4_zero_noise_determinism (T Tswitch : ℕ) (s0 : Tri)
    (P P1 P2 : Params) (thetaBase : Tri) (C : TrainCfg) (g g' : RNG) :
    (simulate_asym T s0 P 0 g).1 = (simulate_asym T s0 P 0 g').1 ∧
    (simulate_asym_schedule T Tswitch s0 P1 P2 0 g).1 =
      (simulate_asym_schedule T Tswitch s0 P1 P2 0 g').1 ∧
    (simulate_training T s0 thetaBase C 0 g).1.1 =
      (simulate_training T s0 thetaBase C 0 g').1.1 :=
  ⟨simAsymAux_zero P T s0 g g',
   simSchedAux_zero P1 P2 Tswitch T 0 s0 g g',
   simTrainAux_zero C T T 0 thetaBase s0 g g'⟩

/-- C7: with the same initial random-source state, the single-switch
runner with `Tswitch = 0` returns exactly the static run under the
phase-2 parameters, and with `Tswitch ≥ T` exactly the static run under
the phase-1 parameters; both are ordinary total runs, not errors. -/
theorem claim_C7_switch_edges (T Tswitch : ℕ) (s0 : Tri) (P1 P2 : Params)
    (sigma : ℚ) (g : RNG) :
    simulate_asym_schedule T 0 s0 P1 P2 sigma g =
      simulate_asym T s0 P2 sigma g ∧
    (T ≤ Tswitch →
      simulate_asym_schedule T Tswitch s0 P1 P2 sigma g =
        simulate_asym T s0 P1 sigma g) :=
  ⟨simSchedAux_switch_zero P1 P2 sigma T 0 s0 g,
   fun h => simSchedAux_switch_ge P1 P2 Tswitch sigma T 0 s0 g (by omega)⟩

/-- Witness for C7 at concrete inputs. -/
theorem claim_C7_witness :
    2 ≤ 3 ∧
    simulate_asym_schedule 2 0 ⟨1/2, 1/2, 1/2⟩ F_PARAMS C_PARAMS (1/250) gZero =
      simulate_asym 2 ⟨1/2, 1/2, 1/2⟩ C_PARAMS (1/250) gZero ∧
    simulate_asym_schedule 2 3 ⟨1/2, 1/2, 1/2⟩ F_PARAMS C_PARAMS (1/250) gZero =
      simulate_asym 2 ⟨1/2, 1/2, 1/2⟩ F_PARAMS (1/250) gZero :=
  ⟨by norm_num,
   (claim_C7_switch_edges 2 3 ⟨1/2, 1/2, 1/2⟩ F_PARAMS C_PARAMS (1/250) gZero).1,
   (claim_C7_switch_edges 2 3 ⟨1/2, 1/2, 1/2⟩ F_PARAMS C_PARAMS (1/250) gZero).2
     (by norm_num)⟩

/-- C8: the adaptive target runner's trajectory coincides with the
generic per-step-lookup run in which the stepper at step `t` uses the
target triple after `t + 1` drift updates (the target is updated first,
and the just-updated value is what the step uses) and the session rates
inside a session window, the base rates outside. -/
theorem claim_C8_training_target_first (T : ℕ) (s0 thetaBase : Tri)
    (C : TrainCfg) (sigma : ℚ) (g : RNG) :
    (simulate_training T s0 thetaBase C sigma g).1.1 =
      (runSched (trainParams C T thetaBase) sigma T 0 s0 g).1 ∧
    (simulate_training T s0 thetaBase C sigma g).2 =
      (runSched (trainParams C T thetaBase) sigma T 0 s0 g).2 :=
  ⟨congrArg Prod.fst (simTrainAux_runSched C T thetaBase sigma T 0 s0 g),
   congrArg Prod.snd (simTrainAux_runSched C T thetaBase sigma T 0 s0 g)⟩

/-- C1: for every scheduler and valid inputs (initial values in [0,1],
targets in [0,1], rates in (0,1], noise σ ≥ 0 — and, for the oscillating
runner, positive block bounds with a nonempty draw range so that blocks
are produced), every produced channel trajectory has length exactly
`T + 1`, element 0 equal to the supplied initial value, and every
element in `[0,1]`, regardless of the noise draws. -/
theorem claim_C1_trajectory_invariants (T Tswitch : ℕ) (s0 : Tri)
    (P P1 P2 : Params) (p : ℚ) (rho : Option ℚ) (start : BlockRegime)
    (min_len max_len : ℕ) (thetaBase : Tri) (C : TrainCfg) (sigma : ℚ)
    (g : RNG) (hs0 : triInUnit s0) (hsig : 0 ≤ sigma)
    (hP : ValidParams P) (hP1 : ValidParams P1) (hP2 : ValidParams P2)
    (hmin : 1 ≤ min_len) (hmax : min_len < max_len) :
    trajOK T s0 (simulate_asym T s0 P sigma g).1 ∧
    trajOK T s0 (simulate_asym_schedule T Tswitch s0 P1 P2 sigma g).1 ∧
    trajOK T s0 (simulate_intermit T s0 p rho sigma g).1 ∧
    (∃ tr phases g2,
      simulate_gaslighting T s0 start min_len max_len sigma g =
        Except.ok ((tr, phases), g2) ∧ trajOK T s0 tr) ∧
    trajOK T s0 (simulate_training T s0 thetaBase C sigma g).1.1 := by
  refine ⟨?_, ?_, ?_, ?_, ?_⟩
  · obtain ⟨rest, h1, h2, h3⟩ := simAsymAux_shape P sigma T s0 g
    exact trajOK_of T s0 _ rest h1 h2 h3 hs0
  · obtain ⟨rest, h1, h2, h3⟩ := simSchedAux_shape P1 P2 Tswitch sigma T 0 s0 g
    exact trajOK_of T s0 _ rest h1 h2 h3 hs0
  · obtain ⟨rest, h1, h2, h3⟩ := simIntermitAux_shape p rho sigma T none s0 g
    exact trajOK_of T s0 _ rest h1 h2 h3 hs0
  · obtain ⟨ps, g2, hok, hchain⟩ :=
      makePhasesAux_ok min_len max_len T hmin hmax T 0 start g
        (Nat.zero_le T) (by omega)
    have hmp : make_phase_pattern T start min_len max_len g =
        Except.ok (ps, g2) := hok
    have hlen := blocksChain_expand_length min_len max_len T ps 0 start hchain
    obtain ⟨rest, h1, h2, h3⟩ := runSeries_shape sigma (expandPhases ps) s0 g2
    refine ⟨(runSeries sigma (expandPhases ps) s0 g2).1, ps,
      (runSeries sigma (expandPhases ps) s0 g2).2, ?_, ?_⟩
    · simp only [simulate_gaslighting, hmp]
    · refine trajOK_of T s0 _ rest h1 ?_ h3 hs0
      rw [h2, hlen, Nat.sub_zero]
  · obtain ⟨rest, h1, h2, h3⟩ := simTrainAux_shape C T sigma T 0 thetaBase s0 g
    exact trajOK_of T s0 _ rest h1 h2 h3 hs0

/-- Witness for C1 at concrete inputs. -/
theorem claim_C1_witness :
    triInUnit ⟨1/2, 1/2, 1/2⟩ ∧ (0:ℚ) ≤ 1/250 ∧ ValidParams F_PARAMS ∧
    ValidParams C_PARAMS ∧ 1 ≤ 1 ∧ 1 < 2 ∧
    (trajOK 1 ⟨1/2, 1/2, 1/2⟩
        (simulate_asym 1 ⟨1/2, 1/2, 1/2⟩ F_PARAMS (1/250) gZero).1 ∧
      trajOK 1 ⟨1/2, 1/2, 1/2⟩
        (simulate_asym_schedule 1 1 ⟨1/2, 1/2, 1/2⟩ F_PARAMS C_PARAMS
          (1/250) gZero).1 ∧
      trajOK 1 ⟨1/2, 1/2, 1/2⟩
        (simulate_intermit 1 ⟨1/2, 1/2, 1/2⟩ (1/5) none (1/250) gZero).1 ∧
      (∃ tr phases g2,
        simulate_gaslighting 1 ⟨1/2, 1/2, 1/2⟩ BlockRegime.fiduciary 1 2
            (1/250) gZero = Except.ok ((tr, phases), g2) ∧
          trajOK 1 ⟨1/2, 1/2, 1/2⟩ tr) ∧
      trajOK 1 ⟨1/2, 1/2, 1/2⟩
        (simulate_training 1 ⟨1/2, 1/2, 1/2⟩ ⟨1/4, 3/10, 3/5⟩
          ⟨⟨3/4, 4/5, 9/50⟩, ⟨1/40, 1/40, 3/100⟩, ⟨3/50, 7/100, 3/50⟩,
            1/5, 1/50, [(1, 1)]⟩ (1/250) gZero).1.1) := by
  have hA : triInUnit ⟨1/2, 1/2, 1/2⟩ := by norm_num [triInUnit, inUnit]
  have hB : (0:ℚ) ≤ 1/250 := by norm_num
  have hC : ValidParams F_PARAMS := by norm_num [ValidParams, F_PARAMS, inUnit]
  have hD : ValidParams C_PARAMS := by norm_num [ValidParams, C_PARAMS, inUnit]
  exact ⟨hA, hB, hC, hD, le_refl 1, one_lt_two,
    claim_C1_trajectory_invariants 1 1 ⟨1/2, 1/2, 1/2⟩ F_PARAMS F_PARAMS
      C_PARAMS (1/5) none BlockRegime.fiduciary 1 2 ⟨1/4, 3/10, 3/5⟩
      ⟨⟨3/4, 4/5, 9/50⟩, ⟨1/40, 1/40, 3/100⟩, ⟨3/50, 7/100, 3/50⟩,
        1/5, 1/50, [(1, 1)]⟩ (1/250) gZero hA hB hC hC hD
      (le_refl 1) one_lt_two⟩

/-- C10: for every scheduler, element 0 of each returned channel
trajectory is exactly the supplied initial value — no clamp is applied
to it, so an out-of-range initial value appears unchanged at index 0 —
while every element at index ≥ 1 lies in `[0,1]` because the stepper
clamps each post-update value. -/
theorem claim_C10_initial_value_exact (T Tswitch : ℕ) (s0 : Tri)
    (P P1 P2 : Params) (p : ℚ) (rho : Option ℚ) (start : BlockRegime)
    (min_len max_len : ℕ) (thetaBase : Tri) (C : TrainCfg) (sigma : ℚ)
    (g : RNG) (hmin : 1 ≤ min_len) (hmax : min_len < max_len) :
    trajHeadExact s0 (simulate_asym T s0 P sigma g).1 ∧
    trajHeadExact s0 (simulate_asym_schedule T Tswitch s0 P1 P2 sigma g).1 ∧
    trajHeadExact s0 (simulate_intermit T s0 p rho sigma g).1 ∧
    (∃ tr phases g2,
      simulate_gaslighting T s0 start min_len max_len sigma g =
        Except.ok ((tr, phases), g2) ∧ trajHeadExact s0 tr) ∧
    trajHeadExact s0 (simulate_training T s0 thetaBase C sigma g).1.1 := by
  refine ⟨?_, ?_, ?_, ?_, ?_⟩
  · obtain ⟨rest, h1, -, h3⟩ := simAsymAux_shape P sigma T s0 g
    exact trajHeadExact_of s0 _ rest h1 h3
  · obtain ⟨rest, h1, -, h3⟩ := simSchedAux_shape P1 P2 Tswitch sigma T 0 s0 g
    exact trajHeadExact_of s0 _ rest h1 h3
  · obtain ⟨rest, h1, -, h3⟩ := simIntermitAux_shape p rho sigma T none s0 g
    exact trajHeadExact_of s0 _ rest h1 h3
  · obtain ⟨ps, g2, hok, hchain⟩ :=
      makePhasesAux_ok min_len max_len T hmin hmax T 0 start g
        (Nat.zero_le T) (by omega)
    have hmp : make_phase_pattern T start min_len max_len g =
        Except.ok (ps, g2) := hok
    obtain ⟨rest, h1, -, h3⟩ := runSeries_shape sigma (expandPhases ps) s0 g2
    refine ⟨(runSeries sigma (expandPhases ps) s0 g2).1, ps,
      (runSeries sigma (expandPhases ps) s0 g2).2, ?_, ?_⟩
    · simp only [simulate_gaslighting, hmp]
    · exact trajHeadExact_of s0 _ rest h1 h3
  · obtain ⟨rest, h1, -, h3⟩ := simTrainAux_shape C T sigma T 0 thetaBase s0 g
    exact trajHeadExact_of s0 _ rest h1 h3

/-- Witness for C10 at concrete inputs, with an initial state outside
`[0,1]`. -/
theorem claim_C10_witness :
    1 ≤ 1 ∧ 1 < 2 ∧
    (trajHeadExact ⟨2, -1, 3⟩
        (simulate_asym 1 ⟨2, -1, 3⟩ F_PARAMS (1/250) gZero).1 ∧
      trajHeadExact ⟨2, -1, 3⟩
        (simulate_asym_schedule 1 1 ⟨2, -1, 3⟩ F_PARAMS C_PARAMS
          (1/250) gZero).1 ∧
      trajHeadExact ⟨2, -1, 3⟩
        (simulate_intermit 1 ⟨2, -1, 3⟩ (1/5) none (1/250) gZero).1 ∧
      (∃ tr phases g2,
        simulate_gaslighting 1 ⟨2, -1, 3⟩ BlockRegime.fiduciary 1 2
            (1/250) gZero = Except.ok ((tr, phases), g2) ∧
          trajHeadExact ⟨2, -1, 3⟩ tr) ∧
      trajHeadExact ⟨2, -1, 3⟩
        (simulate_training 1 ⟨2, -1, 3⟩ ⟨1/4, 3/10, 3/5⟩
          ⟨⟨3/4, 4/5, 9/50⟩, ⟨1/40, 1/40, 3/100⟩, ⟨3/50, 7/100, 3/50⟩,
            1/5, 1/50, [(1, 1)]⟩ (1/250) gZero).1.1) :=
  ⟨le_refl 1, one_lt_two,
    claim_C10_initial_value_exact 1 1 ⟨2, -1, 3⟩ F_PARAMS F_PARAMS C_PARAMS
      (1/5) none BlockRegime.fiduciary 1 2 ⟨1/4, 3/10, 3/5⟩
      ⟨⟨3/4, 4/5, 9/50⟩, ⟨1/40, 1/40, 3/100⟩, ⟨3/50, 7/100, 3/50⟩,
        1/5, 1/50, [(1, 1)]⟩ (1/250) gZero (le_refl 1) one_lt_two⟩

/-- Counterexample to C5 as stated: at `min_len = max_len` (allowed by
the claim's `min_len ≤ max_len`) the block-length draw has an empty
range and numpy raises, so no block list is returned at all. -/
theorem claim_C5_counterexample :
    ¬ ∃ ps g2, make_phase_pattern 1 BlockRegime.fiduciary 5 5 gZero =
      Except.ok (ps, g2) := by
  rintro ⟨ps, g2, h⟩
  have he : make_phase_pattern 1 BlockRegime.fiduciary 5 5 gZero =
      Except.error "low >= high" := rfl
  rw [he] at h
  exact Except.noConfusion h

/-- C5 (amended): for every horizon `T > 0`, starting label, and
positive integers `min_len < max_len`, the oscillating block runner
returns a block list that partitions `[0, T)` exactly — the first block
starts at 0, each block's start is the previous block's end, each block
is nonempty, the last ends at `T` — adjacent blocks carry different
regime labels, and every block length is `< max_len` and `≥ min_len`
unless the block is the final one truncated at `T`. -/
theorem claim_C5_block_partition (T : ℕ) (start : BlockRegime)
    (min_len max_len : ℕ) (g : RNG) (hT : 0 < T) (hmin : 1 ≤ min_len)
    (hmax : min_len < max_len) :
    ∃ ps g2, make_phase_pattern T start min_len max_len g =
        Except.ok (ps, g2) ∧
      ps ≠ [] ∧
      ps.head?.map (fun b : PhaseBlock => b.2.1) = some 0 ∧
      ps.getLast?.map (fun b : PhaseBlock => b.2.2) = some T ∧
      List.Chain' (fun a b : PhaseBlock => a.2.2 = b.2.1) ps ∧
      List.Chain' (fun a b : PhaseBlock => a.1 ≠ b.1) ps ∧
      ∀ b ∈ ps, b.2.1 < b.2.2 ∧ b.2.2 ≤ T ∧ b.2.2 - b.2.1 < max_len ∧
        (min_len ≤ b.2.2 - b.2.1 ∨ b.2.2 = T) := by
  obtain ⟨ps, g2, hok, hchain⟩ :=
    makePhasesAux_ok min_len max_len T hmin hmax T 0 start g
      (Nat.zero_le T) (by omega)
  have hne : ps ≠ [] := by
    intro h
    subst h
    have h0 : (0 : ℕ) = T := hchain
    omega
  have hhead : ps.head?.map (fun b : PhaseBlock => b.2.1) = some 0 := by
    cases ps with
    | nil => exact absurd rfl hne
    | cons b rest =>
      have hb : b.2.1 = 0 := hchain.2.1
      simp [hb]
  exact ⟨ps, g2, hok, hne, hhead,
    blocksChain_getLast min_len max_len T ps 0 start hchain hne,
    blocksChain_contig min_len max_len T ps 0 start hchain,
    blocksChain_alternating min_len max_len T ps 0 start hchain,
    blocksChain_mem min_len max_len T ps 0 start hchain⟩

/-- Witness for the amended C5 at concrete inputs. -/
theorem claim_C5_witness :
    0 < 3 ∧ 1 ≤ 1 ∧ 1 < 3 ∧
    (∃ ps g2, make_phase_pattern 3 BlockRegime.fiduciary 1 3 gZero =
        Except.ok (ps, g2) ∧
      ps ≠ [] ∧
      ps.head?.map (fun b : PhaseBlock => b.2.1) = some 0 ∧
      ps.getLast?.map (fun b : PhaseBlock => b.2.2) = some 3 ∧
      List.Chain' (fun a b : PhaseBlock => a.2.2 = b.2.1) ps ∧
      List.Chain' (fun a b : PhaseBlock => a.1 ≠ b.1) ps ∧
      ∀ b ∈ ps, b.2.1 < b.2.2 ∧ b.2.2 ≤ 3 ∧ b.2.2 - b.2.1 < 3 ∧
        (1 ≤ b.2.2 - b.2.1 ∨ b.2.2 = 3)) :=
  ⟨by decide, by decide, by decide,
    claim_C5_block_partition 3 BlockRegime.fiduciary 1 3 gZero
      (by decide) (by decide) (by decide)⟩

/-- Counterexample to C3 as stated: the equilibrium summarizer accepts
a tail window longer than the trajectory and silently clamps it to the
whole series, accepts a singleton window and returns a NaN half-width
(modelled `none`) instead of rejecting, and the stepper silently treats
a negative noise standard deviation as no noise; the oscillating
runner even accepts `min_len > max_len` when `T = 0`. -/
theorem claim_C3_counterexample :
    tail_stats [1/2, 1/4, 3/4] 100 = tail_stats [1/2, 1/4, 3/4] 3 ∧
    (tail_stats [1/2, 1/4, 3/4] 1).2 = none ∧
    step_asymptotic (1/2) (1/10) (3/4) (-1) gZero =
      (clip01 (1/2 + (1/10) * (3/4 - 1/2) + 0), gZero) ∧
    make_phase_pattern 0 BlockRegime.fiduciary 7 3 gZero =
      Except.ok ([], gZero) := by
  refine ⟨?_, ?_, step_nonpos _ _ _ _ _ (by norm_num), rfl⟩
  · norm_num [tail_stats, pyTailSlice]
  · norm_num [tail_stats, pyTailSlice, sampleStdSq]

/-- C3 (amended): the affected operations perform no input validation —
the summarizer silently clamps an over-long tail window to the whole
series and propagates numpy's NaN (here `none`) for windows of fewer
than two samples, every scheduler's stepper silently treats a negative
noise standard deviation as zero noise, and the oscillating block
runner accepts `min_len > max_len` whenever `T = 0` (returning an empty
block list); only a block-length draw with an empty range raises. -/
theorem claim_C3_no_validation (y : List ℚ) (tail : ℕ) (x k theta sigma : ℚ)
    (g : RNG) (start : BlockRegime) (a b : ℕ) :
    (y.length ≤ tail → pyTailSlice y tail = y) ∧
    ((pyTailSlice y tail).length < 2 → (tail_stats y tail).2 = none) ∧
    (sigma ≤ 0 →
      step_asymptotic x k theta sigma g =
        (clip01 (x + k * (theta - x) + 0), g)) ∧
    make_phase_pattern 0 start a b g = Except.ok ([], g) := by
  refine ⟨?_, ?_, ?_, rfl⟩
  · intro h
    by_cases h0 : tail = 0
    · simp [pyTailSlice, h0]
    · simp [pyTailSlice, h0, Nat.sub_eq_zero_of_le h]
  · intro h
    have h2 : ¬ 2 ≤ (pyTailSlice y tail).length := by omega
    simp [tail_stats, sampleStdSq, h2]
  · intro h
    exact step_nonpos _ _ _ _ _ (not_lt.mpr h)

/-- Witness for the amended C3 at concrete inputs. -/
theorem claim_C3_witness :
    ([1/2, 1/4, 3/4] : List ℚ).length ≤ 5 ∧
    pyTailSlice [1/2, 1/4, 3/4] 5 = [1/2, 1/4, 3/4] ∧
    (pyTailSlice [1/2, 1/4, 3/4] 1).length < 2 ∧
    (tail_stats [1/2, 1/4, 3/4] 1).2 = none ∧
    (-1 : ℚ) ≤ 0 ∧
    step_asymptotic (1/2) (1/10) (3/4) (-1) gZero =
      (clip01 (1/2 + (1/10) * (3/4 - 1/2) + 0), gZero) ∧
    make_phase_pattern 0 BlockRegime.fiduciary 7 3 gZero =
      Except.ok ([], gZero) := by
  have hlen : ([1/2, 1/4, 3/4] : List ℚ).length ≤ 5 := by simp
  have hlen1 : (pyTailSlice [1/2, 1/4, 3/4] 1).length < 2 := by
    norm_num [pyTailSlice]
  exact ⟨hlen,
    (claim_C3_no_validation [1/2, 1/4, 3/4] 5 0 0 0 (-1) gZero
      BlockRegime.fiduciary 7 3).1 hlen,
    hlen1,
    (claim_C3_no_validation [1/2, 1/4, 3/4] 1 0 0 0 (-1) gZero
      BlockRegime.fiduciary 7 3).2.1 hlen1,
    by norm_num,
    (claim_C3_no_validation [] 0 (1/2) (1/10) (3/4) (-1) gZero
      BlockRegime.fiduciary 7 3).2.2.1 (by norm_num),
    (claim_C3_no_validation [] 0 0 0 0 0 gZero
      BlockRegime.fiduciary 7 3).2.2.2⟩
